import Mathlib

/-!
# TaskMaster: the task list of `src/App.js`

A shallow embedding of the logic of `src/App.js`: the statistics of `StatsPage`,
the derived list `filteredTasks`, the three handlers `addOrUpdateTask`,
`deleteTask`, `toggleCompleteTask`, and the initial value of the `tasks` state.

Conventions of the embedding.
* A task object carries the five keys `id`, `title`, `description`, `priority`,
  `complete`, as every object built by `openModal` / `TaskForm` does.  An `id`
  is `null` (`none`) or a number (`some n`).
* Handlers are modelled by the value `updatedTasks` they pass to `setTasks`,
  wrapped in `Except` to record whether the call returns or raises.
* Platform built-ins whose behaviour depends on Unicode tables or on the locale
  (`String.prototype.toLowerCase`, `String.prototype.localeCompare`), the clock
  (`Date.now`) and `JSON.parse` are parameters of the definitions using them.
-/

namespace TaskMaster

/-! ## Data model -/

/-- A task object as stored in the `tasks` state. -/
structure Task where
  id : Option Int
  title : String
  description : String
  priority : String
  complete : Bool
deriving DecidableEq, Repr

/-- Errors that can reach a caller.  `SyntaxError` is what `JSON.parse` raises;
`NotFoundError` and `ValidationError` are named by the specification and are
constructed nowhere in `src/App.js`. -/
inductive AppError where
  | SyntaxError
  | NotFoundError
  | ValidationError
deriving DecidableEq, Repr

/-- Truthiness of an id in a condition (`task.id ? … : …`): `null` and `0` are
falsy, every other number is truthy. -/
def truthy : Option Int → Bool
  | none => false
  | some n => decide (n ≠ 0)

/-- The ids of a collection, in order. -/
def ids (tasks : List Task) : List (Option Int) := tasks.map (·.id)

/-! ## Built-ins -/

/-- `s.includes(t)`: `t` occurs in `s` as a contiguous run. -/
def includes (s t : String) : Bool := decide (t.data <:+: s.data)

/-- `Array.prototype.sort(cmp)`: the sort is stable, `cmp a b ≤ 0` keeps `a`
before `b`; computed by insertion. -/
def sort {α : Type} (cmp : α → α → Int) (l : List α) : List α :=
  l.insertionSort (fun a b => cmp a b ≤ 0)

/-- A lower-casing that maps the ASCII capitals and leaves every other character
alone: an instance of `toLowerCase` for evaluating examples. -/
def asciiLower (s : String) : String := ⟨s.data.map Char.toLower⟩

/-- Lexicographic comparison of character sequences by code point. -/
def compareChars : List Char → List Char → Int
  | [], [] => 0
  | [], _ :: _ => -1
  | _ :: _, [] => 1
  | a :: as, b :: bs =>
    if a.toNat < b.toNat then -1
    else if b.toNat < a.toNat then 1
    else compareChars as bs

/-- Comparison of strings by code point: an instance of `localeCompare` for
evaluating examples. -/
def codePointCompare (a b : String) : Int := compareChars a.data b.data

/-! ## `StatsPage` (lines 8-25) -/

/-- The six numbers `StatsPage` computes. -/
structure Stats where
  totalTasks : Int
  completedTasks : Int
  incompleteTasks : Int
  highPriorityTasks : Int
  mediumPriorityTasks : Int
  lowPriorityTasks : Int
deriving DecidableEq, Repr

/-- The statistics of `StatsPage`. -/
def StatsPage (tasks : List Task) : Stats :=
  let totalTasks : Int := tasks.length
  let completedTasks : Int := (tasks.filter fun task => task.complete).length
  let incompleteTasks : Int := totalTasks - completedTasks
  let highPriorityTasks : Int := (tasks.filter fun task => task.priority == "High").length
  let mediumPriorityTasks : Int := (tasks.filter fun task => task.priority == "Medium").length
  let lowPriorityTasks : Int := (tasks.filter fun task => task.priority == "Low").length
  { totalTasks, completedTasks, incompleteTasks,
    highPriorityTasks, mediumPriorityTasks, lowPriorityTasks }

/-! ## `App` (lines 74-126) -/

/-- The initializer of the `tasks` state (lines 75-78).  `savedTasks` is the
result of `localStorage.getItem`: `none` when the slot is absent.  The empty
string is falsy, so it takes the `[]` branch as well. -/
def loadTasks (JSON_parse : String → Except AppError (List Task))
    (savedTasks : Option String) : Except AppError (List Task) :=
  match savedTasks with
  | none => .ok []
  | some text => if text = "" then .ok [] else JSON_parse text

/-- The predicate of the `filter` step (lines 83-85). -/
def matchesSearch (toLowerCase : String → String) (searchTerm : String) (task : Task) : Bool :=
  includes (toLowerCase task.title) (toLowerCase searchTerm) ||
  includes (toLowerCase task.description) (toLowerCase searchTerm)

/-- The comparator of the `sort` step (lines 86-95). -/
def compareTasks (localeCompare : String → String → Int) (sortType : String)
    (a b : Task) : Int :=
  if a.complete ≠ b.complete then
    if a.complete then 1 else -1
  else if sortType = "priority" then
    localeCompare a.priority b.priority
  else if sortType = "alphabetical" then
    localeCompare a.title b.title
  else 0

/-- The derived list `filteredTasks` (lines 83-95). -/
def filteredTasks (toLowerCase : String → String) (localeCompare : String → String → Int)
    (tasks : List Task) (searchTerm sortType : String) : List Task :=
  sort (compareTasks localeCompare sortType)
    (tasks.filter (matchesSearch toLowerCase searchTerm))

/-- The handler `addOrUpdateTask` (lines 106-111); `now` is the reading of
`Date.now()`.  The spread `{...t, ...task}` takes every key from `task`, which
carries all five. -/
def addOrUpdateTask (now : Int) (tasks : List Task) (task : Task) :
    Except AppError (List Task) :=
  let updatedTasks :=
    if truthy task.id then
      tasks.map fun t =>
        if t.id = task.id then
          { id := task.id, title := task.title, description := task.description,
            priority := task.priority, complete := task.complete }
        else t
    else
      tasks ++ [{ task with id := some now, complete := false }]
  .ok updatedTasks

/-- The handler `deleteTask` (lines 113-118). -/
def deleteTask (tasks : List Task) (id : Option Int) : Except AppError (List Task) :=
  let updatedTasks := tasks.filter fun task => task.id ≠ id
  .ok updatedTasks

/-- The handler `toggleCompleteTask` (lines 120-126). -/
def toggleCompleteTask (tasks : List Task) (id : Option Int) : Except AppError (List Task) :=
  let updatedTasks := tasks.map fun task =>
    if task.id = id then { task with complete := !task.complete } else task
  .ok updatedTasks

/-- One user intent reaching a handler. -/
inductive Op where
  | save (task : Task) (now : Int)
  | delete (id : Option Int)
  | toggle (id : Option Int)
deriving DecidableEq, Repr

/-- The handler an intent invokes. -/
def applyOp (tasks : List Task) : Op → Except AppError (List Task)
  | .save task now => addOrUpdateTask now tasks task
  | .delete id => deleteTask tasks id
  | .toggle id => toggleCompleteTask tasks id

/-- A sequence of intents, each handled on the state the previous one left. -/
def runOps : List Task → List Op → Except AppError (List Task)
  | tasks, [] => .ok tasks
  | tasks, op :: rest =>
    match applyOp tasks op with
    | .ok updatedTasks => runOps updatedTasks rest
    | .error e => .error e

/-- Every clock reading a create uses is the id of no task in the collection at
that moment. -/
def ClockFresh : List Task → List Op → Prop
  | _, [] => True
  | tasks, op :: rest =>
    (match op with
      | .save task now => truthy task.id = false → some now ∉ ids tasks
      | _ => True) ∧
    (match applyOp tasks op with
      | .ok updatedTasks => ClockFresh updatedTasks rest
      | .error _ => True)

/-! ## Vocabulary of the properties -/

/-- The three priority labels of the form (lines 214-216). -/
def priorityLabels : List String := ["Low", "Medium", "High"]

/-- What `localeCompare` answers on the three priority labels: the alphabetical
order High, Low, Medium. -/
def AlphabeticalOnLabels (localeCompare : String → String → Int) : Prop :=
  localeCompare "High" "High" = 0 ∧ localeCompare "High" "Low" < 0 ∧
  localeCompare "High" "Medium" < 0 ∧ 0 < localeCompare "Low" "High" ∧
  localeCompare "Low" "Low" = 0 ∧ localeCompare "Low" "Medium" < 0 ∧
  0 < localeCompare "Medium" "High" ∧ 0 < localeCompare "Medium" "Low" ∧
  localeCompare "Medium" "Medium" = 0

instance (localeCompare : String → String → Int) :
    Decidable (AlphabeticalOnLabels localeCompare) := by
  unfold AlphabeticalOnLabels
  infer_instance

/-- Task `a` may stand before task `b` in the priority view: not a complete task
before an incomplete one, and within one completion group not Low or Medium
before High nor Medium before Low. -/
def InPriorityOrder (a b : Task) : Prop :=
  (a.complete = true → b.complete = true) ∧
  (a.complete = b.complete →
    ¬ (a.priority = "Low" ∧ b.priority = "High") ∧
    ¬ (a.priority = "Medium" ∧ b.priority = "High") ∧
    ¬ (a.priority = "Medium" ∧ b.priority = "Low"))

/-- Position of a task in the key chain (complete, priority label), as a number. -/
def sortKey (task : Task) : Nat :=
  (if task.complete then 3 else 0) +
  (if task.priority = "High" then 0 else if task.priority = "Low" then 1 else 2)

/-! ## Scenario data -/

/-- The first task of the scenario of the specification. -/
def task1 : Task :=
  { id := some 1, title := "Buy milk", description := "", priority := "Low", complete := false }

/-- The second task of the scenario of the specification. -/
def task2 : Task :=
  { id := some 2, title := "Fix bug", description := "", priority := "High", complete := true }

/-- The default argument of `openModal` (line 97) with the form fields of the
create scenario filled in. -/
def newTaskA : Task :=
  { id := none, title := "A", description := "d", priority := "Medium", complete := false }

/-! ## Statistics -/

/-- C10: the incomplete count of `StatsPage` is a natural number (the
subtraction `totalTasks - completedTasks` does not go below zero) and
incomplete + completed = total, where total is the length of the collection and
completed the number of tasks with `complete = true`; on the two-task scenario
the six numbers are total 2, completed 1, incomplete 1, high 1, medium 0, low 1. -/
theorem StatsPage_incomplete_add_completed :
    (∀ tasks : List Task,
      (StatsPage tasks).totalTasks = tasks.length ∧
      (StatsPage tasks).completedTasks = tasks.countP (fun task => task.complete) ∧
      (∃ n : Nat, (StatsPage tasks).incompleteTasks = n ∧
        n + tasks.countP (fun task => task.complete) = tasks.length) ∧
      (StatsPage tasks).incompleteTasks + (StatsPage tasks).completedTasks
        = (StatsPage tasks).totalTasks) ∧
    StatsPage [task1, task2] =
      { totalTasks := 2, completedTasks := 1, incompleteTasks := 1,
        highPriorityTasks := 1, mediumPriorityTasks := 0, lowPriorityTasks := 1 } := by
  refine ⟨fun tasks => ?_, by decide⟩
  have hle : tasks.countP (fun task => task.complete) ≤ tasks.length := List.countP_le_length _
  refine ⟨rfl, ?_, ⟨tasks.length - tasks.countP (fun task => task.complete), ?_, ?_⟩, ?_⟩
  · simp [StatsPage, List.countP_eq_length_filter]
  · simp only [StatsPage, ← List.countP_eq_length_filter]
    omega
  · omega
  · simp only [StatsPage]
    omega

/-! ## Handlers -/

/-- C7: with an input whose id is null, `addOrUpdateTask` returns the
collection with one task appended: the length grows by one, the first tasks are
those of the collection unchanged and in order, and the last task has the title,
description and priority of the input, `complete = false` whatever the input
carried, and the clock reading as its (non-null) id. -/
theorem addOrUpdateTask_create (now : Int) (tasks : List Task) (task : Task)
    (hid : task.id = none) :
    ∃ created : Task,
      addOrUpdateTask now tasks task = .ok (tasks ++ [created]) ∧
      (tasks ++ [created]).length = tasks.length + 1 ∧
      (tasks ++ [created]).take tasks.length = tasks ∧
      created.title = task.title ∧ created.description = task.description ∧
      created.priority = task.priority ∧ created.complete = false ∧
      created.id = some now ∧ created.id ≠ none := by
  refine ⟨{ task with id := some now, complete := false }, ?_, by simp, by simp,
    rfl, rfl, rfl, rfl, rfl, by simp⟩
  simp [addOrUpdateTask, hid, truthy]

/-- The create scenario: on the empty collection the input
`{title: "A", description: "d", priority: "Medium"}` yields one task, incomplete,
with a non-null id. -/
theorem addOrUpdateTask_create_witness :
    newTaskA.id = none ∧
    ∃ created : Task,
      addOrUpdateTask 1700000000000 [] newTaskA = .ok ([] ++ [created]) ∧
      ([] ++ [created]).length = ([] : List Task).length + 1 ∧
      ([] ++ [created]).take ([] : List Task).length = [] ∧
      created.title = "A" ∧ created.description = "d" ∧
      created.priority = "Medium" ∧ created.complete = false ∧
      created.id = some 1700000000000 ∧ created.id ≠ none :=
  ⟨rfl, addOrUpdateTask_create 1700000000000 [] newTaskA rfl⟩

/-- C8: `toggleCompleteTask` applied twice with the same id returns the
collection it started from, task for task and field for field. -/
theorem toggleCompleteTask_twice (tasks : List Task) (id : Option Int) :
    (toggleCompleteTask tasks id >>= fun once => toggleCompleteTask once id) = .ok tasks := by
  show toggleCompleteTask (tasks.map fun task =>
    if task.id = id then { task with complete := !task.complete } else task) id = .ok tasks
  simp only [toggleCompleteTask, List.map_map]
  congr 1
  conv_rhs => rw [← List.map_id tasks]
  apply List.map_congr_left
  intro task _
  obtain ⟨tid, title, description, priority, complete⟩ := task
  by_cases h : tid = id <;> simp [h]

/-- C9: `deleteTask` with an id no task has returns, and returns the
collection unchanged. -/
theorem deleteTask_absent (tasks : List Task) (id : Option Int)
    (habsent : ∀ task ∈ tasks, task.id ≠ id) : deleteTask tasks id = .ok tasks := by
  simp only [deleteTask]
  congr 1
  rw [List.filter_eq_self]
  intro task hmem
  simpa using habsent task hmem

/-- Deleting id 3 from the two-task scenario changes nothing. -/
theorem deleteTask_absent_witness :
    (∀ task ∈ [task1, task2], task.id ≠ some 3) ∧
    deleteTask [task1, task2] (some 3) = .ok [task1, task2] :=
  ⟨by decide, deleteTask_absent [task1, task2] (some 3) (by decide)⟩

/-- C5 fails as stated: an update carrying id 7, which no task of the
scenario has, returns normally with the collection unchanged; no
`NotFoundError` is raised. -/
theorem addOrUpdateTask_absent_id_returns :
    addOrUpdateTask 1700000000000 [task1, task2] { task1 with id := some 7 }
        = .ok [task1, task2] ∧
    addOrUpdateTask 1700000000000 [task1, task2] { task1 with id := some 7 }
        ≠ .error AppError.NotFoundError := by
  constructor
  · rfl
  · intro h
    cases h

/-- C5 amended: an update whose id is a non-zero number that no task has
returns normally and leaves the collection unchanged. -/
theorem addOrUpdateTask_absent_id (now : Int) (tasks : List Task) (task : Task)
    (hid : truthy task.id = true) (habsent : ∀ t ∈ tasks, t.id ≠ task.id) :
    addOrUpdateTask now tasks task = .ok tasks := by
  simp only [addOrUpdateTask, hid, if_true]
  congr 1
  conv_rhs => rw [← List.map_id tasks]
  apply List.map_congr_left
  intro t hmem
  simp [habsent t hmem]

/-- An update with id 7 on the two-task scenario. -/
theorem addOrUpdateTask_absent_id_witness :
    truthy (some 7) = true ∧ (∀ t ∈ [task1, task2], t.id ≠ some 7) ∧
    addOrUpdateTask 0 [task1, task2] { task2 with id := some 7 } = .ok [task1, task2] :=
  ⟨by decide, by decide,
    addOrUpdateTask_absent_id 0 [task1, task2] { task2 with id := some 7 } (by decide) (by decide)⟩

/-! ## Uniqueness of ids -/

/-- An update rewrites tasks in place and keeps every id. -/
lemma ids_update (tasks : List Task) (task : Task) :
    ids (tasks.map fun t =>
      if t.id = task.id then
        ({ id := task.id, title := task.title, description := task.description,
           priority := task.priority, complete := task.complete } : Task)
      else t) = ids tasks := by
  simp only [ids, List.map_map]
  apply List.map_congr_left
  intro t _
  by_cases h : t.id = task.id <;> simp [h]

/-- A toggle keeps every id. -/
lemma ids_toggle (tasks : List Task) (id : Option Int) :
    ids (tasks.map fun task =>
      if task.id = id then { task with complete := !task.complete } else task) = ids tasks := by
  simp only [ids, List.map_map]
  apply List.map_congr_left
  intro t _
  by_cases h : t.id = id <;> simp [h]

/-- One intent with a fresh clock keeps the ids pairwise distinct. -/
lemma applyOp_nodup (tasks : List Task) (op : Op) (hnd : (ids tasks).Nodup)
    (hfresh : match op with
      | .save task now => truthy task.id = false → some now ∉ ids tasks
      | _ => True) :
    ∃ updatedTasks, applyOp tasks op = .ok updatedTasks ∧ (ids updatedTasks).Nodup := by
  cases op with
  | save task now =>
    refine ⟨_, rfl, ?_⟩
    by_cases ht : truthy task.id = true
    · simp only [ht, if_true]
      rw [ids_update]
      exact hnd
    · have hf : truthy task.id = false := by simpa using ht
      have hnew := hfresh hf
      simp only [hf, Bool.false_eq_true, if_false, ids, List.map_append, List.map_cons,
        List.map_nil] at hnew ⊢
      rw [List.nodup_append]
      refine ⟨hnd, List.nodup_singleton _, ?_⟩
      intro a ha hb
      rw [List.mem_singleton] at hb
      subst hb
      exact hnew ha
  | delete id =>
    refine ⟨_, rfl, ?_⟩
    exact (List.Sublist.map _ (List.filter_sublist _)).nodup hnd
  | toggle id =>
    refine ⟨_, rfl, ?_⟩
    rw [ids_toggle]
    exact hnd

/-- C1 fails as stated: two creates that read the same clock value leave two
tasks with the same id. -/
theorem runOps_same_clock_duplicates :
    (ids ([] : List Task)).Nodup ∧
    ∃ updatedTasks,
      runOps [] [Op.save newTaskA 1700000000000, Op.save newTaskA 1700000000000]
        = .ok updatedTasks ∧
      ids updatedTasks = [some 1700000000000, some 1700000000000] ∧
      ¬ (ids updatedTasks).Nodup :=
  ⟨List.nodup_nil, _, rfl, rfl, by decide⟩

/-- C1 amended: from a collection with pairwise distinct ids, every sequence
of create / update / delete / toggle intents in which each create reads a clock
value that is the id of no task then in the collection runs to the end and
leaves a collection with pairwise distinct ids. -/
theorem runOps_ids_nodup (ops : List Op) (tasks : List Task)
    (hnd : (ids tasks).Nodup) (hfresh : ClockFresh tasks ops) :
    ∃ updatedTasks, runOps tasks ops = .ok updatedTasks ∧ (ids updatedTasks).Nodup := by
  induction ops generalizing tasks with
  | nil => exact ⟨tasks, rfl, hnd⟩
  | cons op rest ih =>
    obtain ⟨hop, hrest⟩ := hfresh
    obtain ⟨next, hnext, hnextnd⟩ := applyOp_nodup tasks op hnd hop
    rw [hnext] at hrest
    obtain ⟨final, hfinal, hfinalnd⟩ := ih next hnextnd hrest
    refine ⟨final, ?_, hfinalnd⟩
    simp only [runOps, hnext]
    exact hfinal

/-- A create, an update, a toggle, a second create with a later clock and a
delete, from the empty collection. -/
theorem runOps_ids_nodup_witness :
    (ids ([] : List Task)).Nodup ∧
    ClockFresh [] [Op.save newTaskA 10, Op.save { newTaskA with id := some 10 } 11,
      Op.toggle (some 10), Op.save newTaskA 12, Op.delete (some 10)] ∧
    ∃ updatedTasks,
      runOps [] [Op.save newTaskA 10, Op.save { newTaskA with id := some 10 } 11,
        Op.toggle (some 10), Op.save newTaskA 12, Op.delete (some 10)] = .ok updatedTasks ∧
      (ids updatedTasks).Nodup :=
  ⟨List.nodup_nil,
    by simp [ClockFresh, applyOp, addOrUpdateTask, toggleCompleteTask, deleteTask, truthy, ids,
      newTaskA],
    runOps_ids_nodup _ [] List.nodup_nil
      (by simp [ClockFresh, applyOp, addOrUpdateTask, toggleCompleteTask, deleteTask, truthy,
        ids, newTaskA])⟩

/-! ## The derived list -/

/-- Every string includes the empty string. -/
lemma includes_empty (s : String) : includes s "" = true := by
  simp [includes]

/-- With a lower-casing that fixes the empty string, the empty search term
keeps every task. -/
lemma filter_matchesSearch_empty (toLowerCase : String → String)
    (hlower : toLowerCase "" = "") (tasks : List Task) :
    tasks.filter (matchesSearch toLowerCase "") = tasks := by
  rw [List.filter_eq_self]
  intro task _
  simp [matchesSearch, hlower, includes_empty]

/-- Insertion passes every element the new one may not precede. -/
lemma orderedInsert_append_of_not {α : Type} (r : α → α → Prop) [DecidableRel r] (a : α)
    (front back : List α) (h : ∀ b ∈ front, ¬ r a b) :
    List.orderedInsert r a (front ++ back) = front ++ List.orderedInsert r a back := by
  induction front with
  | nil => rfl
  | cons b front ih =>
    have hb : ¬ r a b := h b (List.mem_cons_self _ _)
    have ih2 := ih fun c hc => h c (List.mem_cons_of_mem _ hc)
    rw [List.cons_append, List.orderedInsert, if_neg hb, ih2, List.cons_append]

/-- Insertion stops at the head when the new element may precede everything. -/
lemma orderedInsert_of_forall {α : Type} (r : α → α → Prop) [DecidableRel r] (a : α)
    (l : List α) (h : ∀ b ∈ l, r a b) : List.orderedInsert r a l = a :: l := by
  cases l with
  | nil => rfl
  | cons b l => simp [List.orderedInsert, h b (List.mem_cons_self _ _)]

/-- With no secondary key the sort is the stable partition by completion. -/
lemma sort_none (localeCompare : String → String → Int) (tasks : List Task) :
    sort (compareTasks localeCompare "none") tasks =
      tasks.filter (fun task => !task.complete) ++ tasks.filter (fun task => task.complete) := by
  induction tasks with
  | nil => rfl
  | cons a tasks ih =>
    simp only [sort, List.insertionSort] at ih ⊢
    rw [ih]
    cases ha : a.complete with
    | false =>
      rw [orderedInsert_of_forall]
      · simp [ha]
      · intro b _
        cases hb : b.complete <;> simp [compareTasks, ha, hb]
    | true =>
      rw [orderedInsert_append_of_not, orderedInsert_of_forall]
      · simp [ha]
      · intro b hb
        have hbc : b.complete = true := by simpa using (List.mem_filter.mp hb).2
        simp [compareTasks, ha, hbc]
      · intro b hb
        have hbc : b.complete = false := by simpa using (List.mem_filter.mp hb).2
        simp [compareTasks, ha, hbc]

/-- C2: with the empty search term and sort type "none", `filteredTasks` is
the incomplete tasks of the collection in their original order followed by the
complete tasks in their original order. -/
theorem filteredTasks_none_partition (toLowerCase : String → String)
    (localeCompare : String → String → Int) (tasks : List Task)
    (hlower : toLowerCase "" = "") :
    filteredTasks toLowerCase localeCompare tasks "" "none" =
      tasks.filter (fun task => !task.complete) ++ tasks.filter (fun task => task.complete) := by
  rw [filteredTasks, filter_matchesSearch_empty toLowerCase hlower, sort_none]

/-- The scenario in the order complete-then-incomplete comes out
incomplete-first. -/
theorem filteredTasks_none_partition_witness :
    asciiLower "" = "" ∧
    filteredTasks asciiLower codePointCompare [task2, task1, task2] "" "none" =
      [task1, task2, task2] :=
  ⟨by decide, filteredTasks_none_partition asciiLower codePointCompare [task2, task1, task2]
    (by decide)⟩

/-- C3: for every search term and sort type, `filteredTasks` is a
permutation of the tasks whose lower-cased title or lower-cased description
includes the lower-cased term; a task matching neither is not in it; and with
the empty term (lower-casing fixing the empty string) it is a permutation of the
whole collection. -/
theorem filteredTasks_perm_matching (toLowerCase : String → String)
    (localeCompare : String → String → Int) (tasks : List Task) (searchTerm sortType : String) :
    (filteredTasks toLowerCase localeCompare tasks searchTerm sortType).Perm
      (tasks.filter fun task =>
        includes (toLowerCase task.title) (toLowerCase searchTerm) ||
        includes (toLowerCase task.description) (toLowerCase searchTerm)) ∧
    (∀ task,
      includes (toLowerCase task.title) (toLowerCase searchTerm) = false →
      includes (toLowerCase task.description) (toLowerCase searchTerm) = false →
      task ∉ filteredTasks toLowerCase localeCompare tasks searchTerm sortType) ∧
    (searchTerm = "" → toLowerCase "" = "" →
      (filteredTasks toLowerCase localeCompare tasks searchTerm sortType).Perm tasks) := by
  have hperm : (filteredTasks toLowerCase localeCompare tasks searchTerm sortType).Perm
      (tasks.filter (matchesSearch toLowerCase searchTerm)) := List.perm_insertionSort _ _
  refine ⟨hperm, ?_, ?_⟩
  · intro task ht hd hmem
    have hm := (List.mem_filter.mp (hperm.mem_iff.mp hmem)).2
    simp [matchesSearch, ht, hd] at hm
  · intro hs hlower
    subst hs
    rw [filter_matchesSearch_empty toLowerCase hlower] at hperm
    exact hperm

/-- The search scenario: for "bug" the view of the two-task collection is
the second task alone, "Buy milk" is not in it, and for the empty term both
tasks are kept. -/
theorem filteredTasks_perm_matching_witness :
    filteredTasks asciiLower codePointCompare [task1, task2] "bug" "none" = [task2] ∧
    task1 ∉ filteredTasks asciiLower codePointCompare [task1, task2] "bug" "none" ∧
    (filteredTasks asciiLower codePointCompare [task1, task2] "" "alphabetical").Perm
      [task1, task2] :=
  ⟨by decide,
   (filteredTasks_perm_matching asciiLower codePointCompare [task1, task2] "bug" "none").2.1
      task1 (by decide) (by decide),
   (filteredTasks_perm_matching asciiLower codePointCompare [task1, task2] ""
      "alphabetical").2.2 rfl (by decide)⟩

/-! ## The priority view -/

/-- Inserting into a list sorted by a numeric key keeps it sorted, when the
relation agrees with the key on the elements involved. -/
lemma pairwise_orderedInsert_key {α : Type} (r : α → α → Prop) [DecidableRel r]
    (key : α → Nat) (a : α) (l : List α)
    (hagree : ∀ b ∈ l, (r a b ↔ key a ≤ key b))
    (hsorted : l.Pairwise fun x y => key x ≤ key y) :
    (List.orderedInsert r a l).Pairwise fun x y => key x ≤ key y := by
  induction l with
  | nil => simp
  | cons b l ih =>
    obtain ⟨hb, hl⟩ := List.pairwise_cons.mp hsorted
    have hab := hagree b (List.mem_cons_self _ _)
    by_cases hr : r a b
    · rw [List.orderedInsert, if_pos hr]
      refine List.pairwise_cons.mpr ⟨?_, hsorted⟩
      intro y hy
      rcases List.mem_cons.mp hy with rfl | hy
      · exact hab.mp hr
      · exact le_trans (hab.mp hr) (hb y hy)
    · rw [List.orderedInsert, if_neg hr]
      refine List.pairwise_cons.mpr ⟨?_, ih (fun c hc => hagree c (List.mem_cons_of_mem _ hc)) hl⟩
      intro y hy
      rcases (List.mem_orderedInsert r).mp hy with rfl | hy
      · exact le_of_lt (not_le.mp fun hle => hr (hab.mpr hle))
      · exact hb y hy

/-- Insertion sort orders by a numeric key when the relation agrees with the
key on the elements of the list. -/
lemma pairwise_insertionSort_key {α : Type} (r : α → α → Prop) [DecidableRel r]
    (key : α → Nat) (l : List α)
    (hagree : ∀ a ∈ l, ∀ b ∈ l, (r a b ↔ key a ≤ key b)) :
    (List.insertionSort r l).Pairwise fun x y => key x ≤ key y := by
  induction l with
  | nil => simp
  | cons a l ih =>
    rw [List.insertionSort]
    apply pairwise_orderedInsert_key
    · intro b hb
      exact hagree a (List.mem_cons_self _ _) b
        (List.mem_cons_of_mem _ ((List.mem_insertionSort r).mp hb))
    · exact ih fun x hx y hy =>
        hagree x (List.mem_cons_of_mem _ hx) y (List.mem_cons_of_mem _ hy)

/-- On tasks with form labels the priority comparator agrees with the key
chain (complete, label). -/
lemma compareTasks_priority_le_iff (localeCompare : String → String → Int)
    (halpha : AlphabeticalOnLabels localeCompare) (a b : Task)
    (ha : a.priority ∈ priorityLabels) (hb : b.priority ∈ priorityLabels) :
    compareTasks localeCompare "priority" a b ≤ 0 ↔ sortKey a ≤ sortKey b := by
  obtain ⟨hHH, hHL, hHM, hLH, hLL, hLM, hMH, hML, hMM⟩ := halpha
  obtain ⟨ida, ta, da, pa, ca⟩ := a
  obtain ⟨idb, tb, db, pb, cb⟩ := b
  simp only [priorityLabels, List.mem_cons, List.mem_singleton, List.not_mem_nil, or_false]
    at ha hb
  rcases ha with rfl | rfl | rfl <;> rcases hb with rfl | rfl | rfl <;>
    cases ca <;> cases cb <;> simp [compareTasks, sortKey] <;> omega

/-- Two tasks with form labels whose keys are in order are in priority order. -/
lemma inPriorityOrder_of_sortKey_le (a b : Task)
    (ha : a.priority ∈ priorityLabels) (hb : b.priority ∈ priorityLabels)
    (hle : sortKey a ≤ sortKey b) : InPriorityOrder a b := by
  obtain ⟨ida, ta, da, pa, ca⟩ := a
  obtain ⟨idb, tb, db, pb, cb⟩ := b
  simp only [priorityLabels, List.mem_cons, List.mem_singleton, List.not_mem_nil, or_false]
    at ha hb
  rcases ha with rfl | rfl | rfl <;> rcases hb with rfl | rfl | rfl <;>
    cases ca <;> cases cb <;> simp [sortKey] at hle <;> simp [InPriorityOrder]

/-- C4: when every priority of the collection is Low, Medium or High (and
`localeCompare` orders these labels alphabetically), the view with sort type
"priority" is in priority order throughout: whenever a task stands before
another, it is not a complete one before an incomplete one, and within one
completion group it is not Low or Medium before High nor Medium before Low. -/
theorem filteredTasks_priority_sorted (toLowerCase : String → String)
    (localeCompare : String → String → Int) (tasks : List Task) (searchTerm : String)
    (halpha : AlphabeticalOnLabels localeCompare)
    (hlabels : ∀ task ∈ tasks, task.priority ∈ priorityLabels) :
    (filteredTasks toLowerCase localeCompare tasks searchTerm "priority").Pairwise
      InPriorityOrder := by
  have hkept : ∀ task ∈ tasks.filter (matchesSearch toLowerCase searchTerm),
      task.priority ∈ priorityLabels :=
    fun task hmem => hlabels task (List.mem_filter.mp hmem).1
  have hkey := pairwise_insertionSort_key
    (fun a b => compareTasks localeCompare "priority" a b ≤ 0) sortKey
    (tasks.filter (matchesSearch toLowerCase searchTerm))
    (fun a ha b hb =>
      compareTasks_priority_le_iff localeCompare halpha a b (hkept a ha) (hkept b hb))
  refine List.Pairwise.imp_of_mem ?_ hkey
  intro a b ha hb hle
  exact inPriorityOrder_of_sortKey_le a b
    (hkept a ((List.mem_insertionSort _).mp ha)) (hkept b ((List.mem_insertionSort _).mp hb)) hle

/-- Six tasks, one per label in each completion group, offered in the
order Medium, Low, High with the complete ones first. -/
theorem filteredTasks_priority_sorted_witness :
    AlphabeticalOnLabels codePointCompare ∧
    (∀ task ∈ [{ task2 with priority := "Medium" }, { task2 with priority := "Low" }, task2,
        { task1 with priority := "Medium" }, task1, { task1 with priority := "High" }],
      task.priority ∈ priorityLabels) ∧
    filteredTasks asciiLower codePointCompare
      [{ task2 with priority := "Medium" }, { task2 with priority := "Low" }, task2,
        { task1 with priority := "Medium" }, task1, { task1 with priority := "High" }]
      "" "priority" =
      [{ task1 with priority := "High" }, task1, { task1 with priority := "Medium" },
        task2, { task2 with priority := "Low" }, { task2 with priority := "Medium" }] ∧
    (filteredTasks asciiLower codePointCompare
      [{ task2 with priority := "Medium" }, { task2 with priority := "Low" }, task2,
        { task1 with priority := "Medium" }, task1, { task1 with priority := "High" }]
      "" "priority").Pairwise InPriorityOrder :=
  ⟨by decide, by decide, by decide,
    filteredTasks_priority_sorted asciiLower codePointCompare _ "" (by decide) (by decide)⟩

/-! ## Loading -/

/-- C6 fails as stated: it is not the case that, whatever `JSON.parse` does
on the content of the slot, the initializer returns (the empty collection when
the slot is absent or the content does not parse, the parsed collection
otherwise): when the slot holds `{` and `JSON.parse` raises, so does the
initializer. -/
theorem loadTasks_raises_on_unparsable :
    ¬ ∀ (JSON_parse : String → Except AppError (List Task)) (savedTasks : Option String),
      loadTasks JSON_parse savedTasks = .ok
        (match savedTasks with
          | none => []
          | some text =>
            match JSON_parse text with
            | .ok parsed => parsed
            | .error _ => []) := by
  intro h
  have h1 := h (fun _ => .error AppError.SyntaxError) (some "\x7b")
  simp [loadTasks] at h1

/-- C6 amended: the initializer returns the empty collection when the slot
is absent or holds the empty text, returns the parsed collection when the
content parses, and raises what `JSON.parse` raises when non-empty content does
not parse. -/
theorem loadTasks_spec (JSON_parse : String → Except AppError (List Task)) :
    loadTasks JSON_parse none = .ok [] ∧
    loadTasks JSON_parse (some "") = .ok [] ∧
    (∀ text parsed, text ≠ "" → JSON_parse text = .ok parsed →
      loadTasks JSON_parse (some text) = .ok parsed) ∧
    (∀ text e, text ≠ "" → JSON_parse text = .error e →
      loadTasks JSON_parse (some text) = .error e) := by
  refine ⟨rfl, by simp [loadTasks], ?_, ?_⟩
  · intro text parsed hne hp
    simp [loadTasks, hne, hp]
  · intro text e hne hp
    simp [loadTasks, hne, hp]

/-- The initializer on a slot holding `[]` and on a slot holding `{`, with a
`JSON.parse` that accepts the first and rejects the second. -/
theorem loadTasks_spec_witness :
    loadTasks (fun text => if text = "[]" then .ok [] else .error AppError.SyntaxError)
        (some "[]") = .ok [] ∧
    loadTasks (fun text => if text = "[]" then .ok [] else .error AppError.SyntaxError)
        (some "\x7b") = .error AppError.SyntaxError :=
  ⟨(loadTasks_spec _).2.2.1 "[]" [] (by decide) (by simp),
   (loadTasks_spec _).2.2.2 "\x7b" AppError.SyntaxError (by decide) (by simp)⟩

end TaskMaster
